/-
Verification development for the PolyBit probability engine.

The repository's algorithmic core lives in `src/utils/math.ts`
(`normalCDF`, `randn_bm`, `extractStrikePrice`, `calculateBlackScholesProb`,
`runMonteCarloSimulation`, `calculateSpread`), in the analysis panel
(`relevantOption`, the recompute effect, the edge/liquidity flags) and in
`src/components/MarketCard.tsx` (`optionsByStrike` grouping).  Each of those
is shallowly embedded below, and the frozen claims about them are settled as
theorems.
-/
import Mathlib

/-!
## A model of JavaScript numbers with non-finite values

The closed-form estimator and the Box-Muller generator can, on degenerate
inputs, produce `Infinity`, `-Infinity` or `NaN` in JavaScript.  To reason
about those cases we model a JS number as either a finite real or one of the
three non-finite values, with the IEEE-754 propagation rules for the
operations the source uses.  Finite arithmetic is idealised as real
arithmetic (rounding is not modelled); signed zero is not modelled, so the
division cases below assume a `+0` denominator, which is what arises at the
inputs considered in this development.
-/

inductive JsNum where
  | fin (x : ℝ)
  | posInf
  | negInf
  | nan
deriving Inhabited

namespace JsNum

noncomputable section
open scoped Classical

/-- JS negation. -/
def jsNeg : JsNum → JsNum
  | fin a => fin (-a)
  | posInf => negInf
  | negInf => posInf
  | nan => nan

/-- JS addition. -/
def jsAdd : JsNum → JsNum → JsNum
  | fin a, fin b => fin (a + b)
  | fin _, posInf => posInf
  | fin _, negInf => negInf
  | posInf, fin _ => posInf
  | negInf, fin _ => negInf
  | posInf, posInf => posInf
  | negInf, negInf => negInf
  | posInf, negInf => nan
  | negInf, posInf => nan
  | nan, _ => nan
  | _, nan => nan

/-- JS subtraction, `a - b = a + (-b)`. -/
def jsSub (a b : JsNum) : JsNum := jsAdd a (jsNeg b)

/-- JS multiplication (`Infinity * 0 = NaN`). -/
def jsMul : JsNum → JsNum → JsNum
  | fin a, fin b => fin (a * b)
  | fin a, posInf => if 0 < a then posInf else if a < 0 then negInf else nan
  | fin a, negInf => if 0 < a then negInf else if a < 0 then posInf else nan
  | posInf, fin b => if 0 < b then posInf else if b < 0 then negInf else nan
  | negInf, fin b => if 0 < b then negInf else if b < 0 then posInf else nan
  | posInf, posInf => posInf
  | negInf, negInf => posInf
  | posInf, negInf => negInf
  | negInf, posInf => negInf
  | nan, _ => nan
  | _, nan => nan

/-- JS division (`a / 0` is a signed infinity for `a ≠ 0`, `0 / 0 = NaN`,
`a / ±Infinity = 0`; the zero denominator is taken to be `+0`). -/
def jsDiv : JsNum → JsNum → JsNum
  | fin a, fin b =>
      if b = 0 then (if 0 < a then posInf else if a < 0 then negInf else nan)
      else fin (a / b)
  | fin _, posInf => fin 0
  | fin _, negInf => fin 0
  | posInf, fin b => if 0 ≤ b then posInf else negInf
  | negInf, fin b => if 0 ≤ b then negInf else posInf
  | posInf, posInf => nan
  | posInf, negInf => nan
  | negInf, posInf => nan
  | negInf, negInf => nan
  | nan, _ => nan
  | _, nan => nan

/-- JS `Math.log`. -/
def jsLog : JsNum → JsNum
  | fin a => if 0 < a then fin (Real.log a) else if a = 0 then negInf else nan
  | posInf => posInf
  | negInf => nan
  | nan => nan

/-- JS `Math.sqrt`. -/
def jsSqrt : JsNum → JsNum
  | fin a => if 0 ≤ a then fin (Real.sqrt a) else nan
  | posInf => posInf
  | negInf => nan
  | nan => nan

/-- JS `Math.exp`. -/
def jsExp : JsNum → JsNum
  | fin a => fin (Real.exp a)
  | posInf => posInf
  | negInf => fin 0
  | nan => nan

/-- JS `Math.cos` (non-finite arguments give `NaN`). -/
def jsCos : JsNum → JsNum
  | fin a => fin (Real.cos a)
  | _ => nan

/-- JS `Math.pow` with a natural exponent, as iterated multiplication. -/
def jsPow (x : JsNum) : ℕ → JsNum
  | 0 => fin 1
  | n + 1 => jsMul (jsPow x n) x

/-- The comparison `x < 0` of the source's `normalCDF` (`NaN < 0` is false). -/
def jsLtZero : JsNum → Prop
  | fin a => a < 0
  | negInf => True
  | _ => False

end

end JsNum

noncomputable section
open scoped Classical
open JsNum

/-- The non-negative branch of `normalCDF` (src/utils/math.ts:5-18): the
Abramowitz-Stegun 26.2.17 polynomial approximation, with the JS expression
tree reproduced operation by operation. -/
def normalCDFpos (x : JsNum) : JsNum :=
  let t := jsDiv (fin 1) (jsAdd (fin 1) (jsMul (fin 0.2316419) x))
  jsSub (fin 1)
    (jsMul
      (jsMul (jsDiv (fin 1) (jsSqrt (jsMul (fin 2) (fin Real.pi))))
        (jsExp (jsMul (jsMul (fin (-0.5)) x) x)))
      (jsAdd
        (jsAdd
          (jsAdd (jsAdd (jsMul (fin 0.31938153) t) (jsMul (fin (-0.356563782)) (jsPow t 2)))
            (jsMul (fin 1.781477937) (jsPow t 3)))
          (jsMul (fin (-1.821255978)) (jsPow t 4)))
        (jsMul (fin 1.330274429) (jsPow t 5))))

/-- `normalCDF` (src/utils/math.ts:5-18).  The source recursion
`if (x < 0) return 1 - normalCDF(-x)` unrolls to a single negation because
the negated argument is never again below zero. -/
def normalCDF (x : JsNum) : JsNum :=
  if jsLtZero x then jsSub (fin 1) (normalCDFpos (jsNeg x)) else normalCDFpos x

/-- `calculateBlackScholesProb` (src/utils/math.ts:53-64), the digital-call
closed-form estimator, over the JS-number model.  Inputs are finite reals;
the body can still produce non-finite intermediate values when `sigma = 0`. -/
def calculateBlackScholesProb (S K T sigma r : ℝ) : JsNum :=
  if T ≤ 0 then (if K < S then fin 1 else fin 0)
  else
    let d2 := jsDiv
      (jsAdd (jsLog (jsDiv (fin S) (fin K)))
        (jsMul (jsSub (fin r) (jsMul (jsMul (fin 0.5) (fin sigma)) (fin sigma))) (fin T)))
      (jsMul (fin sigma) (jsSqrt (fin T)))
    normalCDF d2

end

/-! Evaluation lemmas for the JS-number operations, used to trace the
degenerate closed-form path through the model. -/

namespace JsNum

theorem jsDiv_fin_fin {a b : ℝ} (hb : b ≠ 0) : jsDiv (fin a) (fin b) = fin (a / b) := by
  simp [jsDiv, hb]

theorem jsDiv_fin_zero_pos {a : ℝ} (ha : 0 < a) : jsDiv (fin a) (fin 0) = posInf := by
  simp [jsDiv, ha]

theorem jsDiv_fin_zero_zero : jsDiv (fin 0) (fin 0) = nan := by
  simp [jsDiv]

theorem jsDiv_fin_posInf (a : ℝ) : jsDiv (fin a) posInf = fin 0 := by
  simp [jsDiv]

theorem jsLog_fin_pos {a : ℝ} (ha : 0 < a) : jsLog (fin a) = fin (Real.log a) := by
  simp [jsLog, ha]

theorem jsSqrt_fin_nonneg {a : ℝ} (ha : 0 ≤ a) : jsSqrt (fin a) = fin (Real.sqrt a) := by
  simp [jsSqrt, ha]

theorem jsMul_fin_fin (a b : ℝ) : jsMul (fin a) (fin b) = fin (a * b) := rfl

theorem jsMul_fin_posInf_pos {a : ℝ} (ha : 0 < a) : jsMul (fin a) posInf = posInf := by
  simp [jsMul, ha]

theorem jsMul_fin_posInf_neg {a : ℝ} (ha : a < 0) : jsMul (fin a) posInf = negInf := by
  simp [jsMul, ha, ha.not_lt]

theorem jsMul_negInf_posInf : jsMul negInf posInf = negInf := rfl

theorem jsMul_fin_nan (a : ℝ) : jsMul (fin a) nan = nan := rfl

theorem jsMul_nan_left (x : JsNum) : jsMul nan x = nan := by
  cases x <;> rfl

theorem jsMul_nan_right (x : JsNum) : jsMul x nan = nan := by
  cases x <;> rfl

theorem jsAdd_nan_right (x : JsNum) : jsAdd x nan = nan := by
  cases x <;> rfl

theorem jsDiv_nan_right (x : JsNum) : jsDiv x nan = nan := by
  cases x <;> rfl

theorem jsExp_nan : jsExp nan = nan := rfl

theorem jsAdd_fin_fin (a b : ℝ) : jsAdd (fin a) (fin b) = fin (a + b) := rfl

theorem jsAdd_fin_posInf (a : ℝ) : jsAdd (fin a) posInf = posInf := rfl

theorem jsAdd_fin_nan (a : ℝ) : jsAdd (fin a) nan = nan := rfl

theorem jsExp_negInf : jsExp negInf = fin 0 := rfl

theorem jsSub_fin_fin (a b : ℝ) : jsSub (fin a) (fin b) = fin (a + -b) := rfl

theorem jsSub_fin_nan (a : ℝ) : jsSub (fin a) nan = nan := rfl

theorem jsPow_fin_zero {n : ℕ} (hn : n ≠ 0) : jsPow (fin 0) n = fin 0 := by
  induction n with
  | zero => exact absurd rfl hn
  | succ m ih =>
    cases Nat.eq_zero_or_pos m with
    | inl h => subst h; simp [jsPow, jsMul]
    | inr h =>
      rw [jsPow, ih (Nat.pos_iff_ne_zero.mp h), jsMul_fin_fin, mul_zero]

theorem jsPow_nan {n : ℕ} (hn : n ≠ 0) : jsPow nan n = nan := by
  induction n with
  | zero => exact absurd rfl hn
  | succ m ih =>
    cases Nat.eq_zero_or_pos m with
    | inl h => subst h; rw [jsPow, jsPow, jsMul_fin_nan]
    | inr h =>
      rw [jsPow, ih (Nat.pos_iff_ne_zero.mp h), jsMul_nan_left]

end JsNum

open JsNum

/-- The polynomial branch of `normalCDF` at `+Infinity` evaluates to exactly
`1`: the argument `t` collapses to `0` and the Gaussian factor to `0`. -/
theorem normalCDFpos_posInf : normalCDFpos posInf = fin 1 := by
  have h2pi : (0:ℝ) < 2 * Real.pi := by positivity
  have hsq : Real.sqrt (2 * Real.pi) ≠ 0 := ne_of_gt (Real.sqrt_pos.mpr h2pi)
  simp only [normalCDFpos]
  rw [jsMul_fin_posInf_pos (by norm_num : (0:ℝ) < 0.2316419),
    jsAdd_fin_posInf, jsDiv_fin_posInf]
  rw [jsMul_fin_posInf_neg (by norm_num : (-0.5:ℝ) < 0), jsMul_negInf_posInf, jsExp_negInf]
  rw [jsMul_fin_fin, jsSqrt_fin_nonneg h2pi.le, jsDiv_fin_fin hsq, jsMul_fin_fin,
    jsPow_fin_zero (by norm_num : (2:ℕ) ≠ 0), jsPow_fin_zero (by norm_num : (3:ℕ) ≠ 0),
    jsPow_fin_zero (by norm_num : (4:ℕ) ≠ 0), jsPow_fin_zero (by norm_num : (5:ℕ) ≠ 0)]
  rw [jsMul_fin_fin, jsMul_fin_fin, jsMul_fin_fin, jsMul_fin_fin, jsMul_fin_fin,
    jsAdd_fin_fin, jsAdd_fin_fin, jsAdd_fin_fin, jsAdd_fin_fin, jsMul_fin_fin,
    jsSub_fin_fin]
  norm_num

/-- The polynomial branch of `normalCDF` propagates `NaN`. -/
theorem normalCDFpos_nan : normalCDFpos nan = nan := by
  simp [normalCDFpos, jsMul_nan_right, jsMul_nan_left, jsAdd_nan_right, jsDiv_nan_right,
    jsExp_nan, jsPow_nan, jsSub_fin_nan]

/-- `normalCDF` at `+Infinity` is `1`. -/
theorem normalCDF_posInf : normalCDF posInf = fin 1 := by
  unfold normalCDF
  rw [if_neg (by simp [jsLtZero])]
  exact normalCDFpos_posInf

/-- `normalCDF` at `NaN` is `NaN`. -/
theorem normalCDF_nan : normalCDF nan = nan := by
  unfold normalCDF
  rw [if_neg (by simp [jsLtZero])]
  exact normalCDFpos_nan

/-!
## The Monte-Carlo path-simulation estimator

`runMonteCarloSimulation` (src/utils/math.ts:70-117).  The impure RNG
`randn_bm()` is modelled as an oracle `Z : ℕ → ℕ → ℝ` giving the standard
normal draw consumed by path `i` at step `j`; every call site of the source
receives a fresh independent draw, so indexing the draws by (path, step) is
an observationally faithful rendering of the sequential stream.  Finite
arithmetic is idealised as real arithmetic; the degenerate non-finite cases
of the simulator are not at issue in any claim about it.
-/

noncomputable section
open scoped Classical

/-- The inner step loop of one simulated path
(src/utils/math.ts:98-106): starting from price `s` at step index `j` with
`n` steps remaining, update `currentS = currentS * exp(drift + volShock*Z)`
and, in touch mode, stop with `hit = true` as soon as `currentS >= K`.
Returns the final `currentS` and the `hit` flag. -/
def mcPathLoop (drift volShock K : ℝ) (isTouch : Bool) (z : ℕ → ℝ) :
    ℕ → ℕ → ℝ → ℝ × Bool
  | _, 0, s => (s, false)
  | j, n + 1, s =>
      let s2 := s * Real.exp (drift + volShock * z j)
      if isTouch = true ∧ K ≤ s2 then (s2, true)
      else mcPathLoop drift volShock K isTouch z (j + 1) n s2

/-- Whether one path counts as a success (src/utils/math.ts:108-113):
in touch mode the `hit` flag, otherwise `currentS > K` at the end. -/
def mcPathSuccess (drift volShock K : ℝ) (isTouch : Bool) (z : ℕ → ℝ)
    (steps : ℕ) (S : ℝ) : Prop :=
  let r := mcPathLoop drift volShock K isTouch z 0 steps S
  if isTouch then r.2 = true else K < r.1

/-- The outer iteration loop accumulating `successCount`
(src/utils/math.ts:92-114). -/
def mcSuccessCount (Z : ℕ → ℕ → ℝ) (drift volShock K : ℝ) (isTouch : Bool)
    (steps : ℕ) (S : ℝ) : ℕ → ℕ
  | 0 => 0
  | i + 1 =>
      mcSuccessCount Z drift volShock K isTouch steps S i +
        (if mcPathSuccess drift volShock K isTouch (Z i) steps S then 1 else 0)

/-- `runMonteCarloSimulation` (src/utils/math.ts:70-117). -/
def runMonteCarloSimulation (Z : ℕ → ℕ → ℝ) (S K T sigma r : ℝ)
    (iterations : ℕ) (volMultiplier : ℝ) (isTouch : Bool) : ℝ :=
  if T ≤ 0 then (if K < S then 1 else 0)
  else
    let effectiveSigma := sigma * volMultiplier
    let steps : ℕ := if isTouch then (max 1 ⌈T * 365⌉).toNat else 1
    let stepDt := T / steps
    let drift := (r - 0.5 * effectiveSigma * effectiveSigma) * stepDt
    let volShock := effectiveSigma * Real.sqrt stepDt
    (mcSuccessCount Z drift volShock K isTouch steps S iterations : ℝ) / iterations

/-- The ideal compounded price sequence of one path: `mcPrices … j` is the
price after `j` multiplicative steps, with no stopping. -/
def mcPrices (drift volShock S : ℝ) (z : ℕ → ℝ) : ℕ → ℝ
  | 0 => S
  | j + 1 => mcPrices drift volShock S z j * Real.exp (drift + volShock * z j)

end

/-- In non-touch mode the step loop never stops early: starting at step
index `j` from the ideal price at `j`, it returns the fully compounded price
after all remaining steps, with `hit = false`. -/
theorem mcPathLoop_false_eq (drift volShock K S : ℝ) (z : ℕ → ℝ) :
    ∀ n j, mcPathLoop drift volShock K false z j n (mcPrices drift volShock S z j)
      = (mcPrices drift volShock S z (j + n), false) := by
  intro n
  induction n with
  | zero => intro j; simp [mcPathLoop]
  | succ m ih =>
    intro j
    rw [mcPathLoop]
    rw [if_neg (by simp)]
    have hs2 : mcPrices drift volShock S z j * Real.exp (drift + volShock * z j)
        = mcPrices drift volShock S z (j + 1) := rfl
    rw [hs2, ih (j + 1)]
    have : j + 1 + m = j + (m + 1) := by omega
    rw [this]

/-- In touch mode the `hit` flag is set exactly when some strictly-post-step
ideal price reaches the barrier within the remaining steps. -/
theorem mcPathLoop_touch_hit_iff (drift volShock K S : ℝ) (z : ℕ → ℝ) :
    ∀ n j, (mcPathLoop drift volShock K true z j n (mcPrices drift volShock S z j)).2 = true
      ↔ ∃ m, j < m ∧ m ≤ j + n ∧ K ≤ mcPrices drift volShock S z m := by
  intro n
  induction n with
  | zero =>
    intro j
    simp only [mcPathLoop]
    constructor
    · intro h; exact absurd h (by simp)
    · rintro ⟨m, h1, h2, -⟩; omega
  | succ m ih =>
    intro j
    rw [mcPathLoop]
    have hs2 : mcPrices drift volShock S z j * Real.exp (drift + volShock * z j)
        = mcPrices drift volShock S z (j + 1) := rfl
    by_cases hK : K ≤ mcPrices drift volShock S z (j + 1)
    · rw [hs2, if_pos ⟨rfl, hK⟩]
      constructor
      · intro _; exact ⟨j + 1, by omega, by omega, hK⟩
      · intro _; rfl
    · rw [hs2, if_neg (by simp [hK])]
      rw [ih (j + 1)]
      constructor
      · rintro ⟨k, h1, h2, h3⟩; exact ⟨k, by omega, by omega, h3⟩
      · rintro ⟨k, h1, h2, h3⟩
        have hk : k ≠ j + 1 := fun he => hK (he ▸ h3)
        exact ⟨k, by omega, by omega, h3⟩

/-- In touch mode the loop stops at the first touch: if `m` is the first
strictly-post-step index at which the barrier is reached, the loop returns
the price at `m` together with `hit = true`. -/
theorem mcPathLoop_touch_first (drift volShock K S : ℝ) (z : ℕ → ℝ) :
    ∀ n j m, j < m → m ≤ j + n → K ≤ mcPrices drift volShock S z m →
      (∀ i, j < i → i < m → mcPrices drift volShock S z i < K) →
      mcPathLoop drift volShock K true z j n (mcPrices drift volShock S z j)
        = (mcPrices drift volShock S z m, true) := by
  intro n
  induction n with
  | zero => intro j m h1 h2 _ _; omega
  | succ k ih =>
    intro j m h1 h2 hK hmin
    rw [mcPathLoop]
    have hs2 : mcPrices drift volShock S z j * Real.exp (drift + volShock * z j)
        = mcPrices drift volShock S z (j + 1) := rfl
    by_cases hm : m = j + 1
    · rw [hs2, if_pos ⟨rfl, hm ▸ hK⟩, hm]
    · have hj1m : j + 1 < m := by omega
      have hlt : mcPrices drift volShock S z (j + 1) < K := hmin (j + 1) (by omega) hj1m
      rw [hs2, if_neg (by simp [not_le.mpr hlt])]
      exact ih (j + 1) m hj1m (by omega) hK (fun i hi1 hi2 => hmin i (by omega) hi2)

/-- If every multiplicative step strictly shrinks the price, a path started
at or below the barrier never touches it. -/
theorem mcPathLoop_never_hits (drift volShock K : ℝ) (z : ℕ → ℝ)
    (hstep : ∀ m, drift + volShock * z m < 0) :
    ∀ n j s, 0 < s → s ≤ K →
      (mcPathLoop drift volShock K true z j n s).2 = false := by
  intro n
  induction n with
  | zero => intro j s _ _; rfl
  | succ m ih =>
    intro j s hs hsK
    rw [mcPathLoop]
    have hexp : Real.exp (drift + volShock * z j) < 1 := Real.exp_lt_one_iff.mpr (hstep j)
    have hs2lt : s * Real.exp (drift + volShock * z j) < s := by
      nlinarith [Real.exp_pos (drift + volShock * z j)]
    have hs2pos : 0 < s * Real.exp (drift + volShock * z j) :=
      mul_pos hs (Real.exp_pos _)
    have hs2K : s * Real.exp (drift + volShock * z j) < K := lt_of_lt_of_le hs2lt hsK
    rw [if_neg (by simp [not_le.mpr hs2K])]
    exact ih (j + 1) _ hs2pos hs2K.le

open scoped Classical in
/-- The source's running `successCount` equals the cardinality of the set of
successful path indices. -/
theorem mcSuccessCount_eq_card (Z : ℕ → ℕ → ℝ) (drift volShock K : ℝ)
    (isTouch : Bool) (steps : ℕ) (S : ℝ) : ∀ N,
    mcSuccessCount Z drift volShock K isTouch steps S N
      = ((Finset.range N).filter
          (fun i => mcPathSuccess drift volShock K isTouch (Z i) steps S)).card := by
  intro N
  induction N with
  | zero => simp [mcSuccessCount]
  | succ n ih =>
    rw [mcSuccessCount, ih, Finset.range_succ, Finset.filter_insert]
    by_cases h : mcPathSuccess drift volShock K isTouch (Z n) steps S
    · rw [if_pos h, if_pos h, Finset.card_insert_of_not_mem (by simp)]
    · rw [if_neg h, if_neg h, add_zero]

/-!
## The Box-Muller generator

`randn_bm` (src/utils/math.ts:23-28).  `Math.random()` is modelled as a
stream `U : ℕ → ℝ` of uniform draws in `[0,1)`; the two rejection loops
`while (u === 0) u = Math.random()` advance through the stream until a
non-zero draw is found, so termination needs the stream to keep producing
non-zero draws, supplied as a hypothesis.
-/

noncomputable section
open scoped Classical
open JsNum

/-- The index of the first non-zero draw at or after `k` in the uniform
stream, modelling one rejection loop. -/
def firstNonzeroDraw (U : ℕ → ℝ) (k : ℕ) (h : ∃ n, k ≤ n ∧ U n ≠ 0) : ℕ :=
  Nat.find h

/-- `randn_bm` over the JS-number model: `u` is the first accepted draw,
`v` the next accepted draw, and the result is
`sqrt(-2 log u) * cos(2 pi v)`. -/
def randn_bm (U : ℕ → ℝ) (h : ∀ k, ∃ n, k ≤ n ∧ U n ≠ 0) : JsNum :=
  let i := firstNonzeroDraw U 0 (h 0)
  let j := firstNonzeroDraw U (i + 1) (h (i + 1))
  jsMul (jsSqrt (jsMul (fin (-2.0)) (jsLog (fin (U i)))))
    (jsCos (jsMul (jsMul (fin 2.0) (fin Real.pi)) (fin (U j))))

end

/-!
## The strike extractor

`extractStrikePrice` (src/utils/math.ts:33-47).  The two regular expressions
`/\$(\d+(\.\d+)?)/` and `/(\d+(\.\d+)?)k\b/` are rendered as left-to-right
scans; because nothing in either pattern can match a digit after the digit
run, greedy maximal-munch matching coincides with the regex semantics.
-/

/-- Numeric value of a digit string, most significant digit first. -/
def digitsToNat (ds : List Char) : ℕ :=
  ds.foldl (fun acc c => acc * 10 + (c.toNat - '0'.toNat)) 0

/-- Parse the regex fragment `\d+(\.\d+)?` at the start of `cs`: greedy
integer digits, optionally a dot followed by at least one fraction digit.
Returns the value `parseFloat` gives the match and the remaining characters,
or `none` when `cs` does not start with a digit. -/
def numToken (cs : List Char) : Option (ℚ × List Char) :=
  if (cs.takeWhile Char.isDigit).isEmpty then none
  else
    match cs.dropWhile Char.isDigit with
    | c :: rest2 =>
        if c = '.' then
          if (rest2.takeWhile Char.isDigit).isEmpty then
            some ((digitsToNat (cs.takeWhile Char.isDigit) : ℚ), cs.dropWhile Char.isDigit)
          else
            some ((digitsToNat (cs.takeWhile Char.isDigit) : ℚ)
                + (digitsToNat (rest2.takeWhile Char.isDigit) : ℚ)
                  / (10 : ℚ) ^ (rest2.takeWhile Char.isDigit).length,
              rest2.dropWhile Char.isDigit)
        else some ((digitsToNat (cs.takeWhile Char.isDigit) : ℚ), cs.dropWhile Char.isDigit)
    | [] => some ((digitsToNat (cs.takeWhile Char.isDigit) : ℚ), [])

/-- First match of pattern 1, `/\$(\d+(\.\d+)?)/` (src/utils/math.ts:39):
the first `$` immediately followed by a number. -/
def findDollarNumber : List Char → Option ℚ
  | [] => none
  | c :: rest =>
      if c = '$' then
        match numToken rest with
        | some (v, _) => some v
        | none => findDollarNumber rest
      else findDollarNumber rest

/-- Membership in the JS word class `\w = [A-Za-z0-9_]`. -/
def isWordChar (c : Char) : Bool := c.isAlphanum || c = '_'

/-- Match pattern 2, `/(\d+(\.\d+)?)k\b/` (src/utils/math.ts:43), at the
start of `cs`: a number, the letter `k`, then a word boundary. -/
def kNumberAt (cs : List Char) : Option ℚ :=
  match numToken cs with
  | some (v, rest) =>
      match rest with
      | c :: rest2 =>
          if c = 'k' then
            match rest2 with
            | [] => some v
            | c2 :: _ => if isWordChar c2 then none else some v
          else none
      | [] => none
  | none => none

/-- First position at which pattern 2 matches. -/
def findKNumber : List Char → Option ℚ
  | [] => none
  | c :: rest =>
      match kNumberAt (c :: rest) with
      | some v => some v
      | none => findKNumber rest

/-- `extractStrikePrice` (src/utils/math.ts:33-47): strip every comma,
lower-case, then try the `$`-number pattern, else the `k`-suffix pattern
scaled by 1000, else fail.  The JS guard `!text` holds exactly for the
empty string. -/
def extractStrikePrice (text : String) : Option ℚ :=
  if text = "" then none
  else
    match findDollarNumber ((text.data.filter (fun c => c ≠ ',')).map Char.toLower) with
    | some v => some v
    | none =>
        match findKNumber ((text.data.filter (fun c => c ≠ ',')).map Char.toLower) with
        | some v => some (v * 1000)
        | none => none

/-!
## Option quotes, the volatility selector and the strike grouping
-/

/-- A Deribit option quote as consumed by the logic under verification; only
the instrument identifier is inspected, the implied volatility is carried as
data. -/
structure OptionQuote where
  instrument_name : String
  mark_iv : ℚ := 0
deriving DecidableEq

/-- JS `String.prototype.split` with a one-character separator, over the
character list (structurally recursive so that concrete instances compute):
every occurrence of the separator delimits a (possibly empty) field. -/
def splitFields (sep : Char) : List Char → List (List Char)
  | [] => [[]]
  | c :: rest =>
      match splitFields sep rest with
      | [] => [[]]
      | f :: fs => if c = sep then [] :: f :: fs else (c :: f) :: fs

/-- Model of JS `parseFloat` on the strings arising here: skip leading
whitespace, an optional sign, then a decimal literal with at least one digit
before or after the dot, ignoring trailing text.  (`Infinity` and exponent
forms do not occur among the inputs considered.)  `none` models `NaN`. -/
def parseFloatQ (s : List Char) : Option ℚ :=
  let cs0 := s.dropWhile (fun c => c.isWhitespace)
  let signed : Bool × List Char :=
    match cs0 with
    | '-' :: rest => (true, rest)
    | '+' :: rest => (false, rest)
    | _ => (false, cs0)
  let neg := signed.1
  let cs := signed.2
  let ds := cs.takeWhile Char.isDigit
  let rest := cs.dropWhile Char.isDigit
  match rest with
  | '.' :: rest2 =>
      let fs := rest2.takeWhile Char.isDigit
      if ds.isEmpty && fs.isEmpty then none
      else
        let mag : ℚ := (digitsToNat ds : ℚ) + (digitsToNat fs : ℚ) / (10 : ℚ) ^ fs.length
        some (if neg then -mag else mag)
  | _ =>
      if ds.isEmpty then none
      else some (if neg then -(digitsToNat ds : ℚ) else (digitsToNat ds : ℚ))

/-- The strike encoded in an instrument identifier:
`parseFloat(instrument_name.split('-')[2])` (src/unnamed/part_000:43-44);
`none` models `NaN` (missing third field or non-numeric prefix). -/
def strikeOf (o : OptionQuote) : Option ℚ :=
  match (splitFields '-' o.instrument_name.data).get? 2 with
  | some s => parseFloatQ s
  | none => none

/-- The comparator of `relevantOption`
(`Math.abs(strikeA - strikePrice) - Math.abs(strikeB - strikePrice)`,
src/unnamed/part_000:42-46) as a keep-order relation: `a` may stay before
`b` iff the comparator value is at most 0; a `NaN` comparator value (either
strike unparseable) is treated by the sort as 0, i.e. keep order. -/
def strikeDistLe (strikePrice : ℚ) (a b : OptionQuote) : Bool :=
  match strikeOf a, strikeOf b with
  | some sa, some sb => decide (|sa - strikePrice| - |sb - strikePrice| ≤ 0)
  | _, _ => true

/-- Stable insertion of `a` into an already sorted list: `a` goes before the
first element it need not follow. -/
def stableInsert {α : Type} (le : α → α → Bool) (a : α) : List α → List α
  | [] => [a]
  | b :: l => if le a b then a :: b :: l else b :: stableInsert le a l

/-- Stable sorting, modelling `Array.prototype.sort` (stable as required
since ES2019); for a consistent comparator every stable sort produces the
same, specification-mandated order. -/
def stableSort {α : Type} (le : α → α → Bool) : List α → List α
  | [] => []
  | a :: l => stableInsert le a (stableSort le l)

/-- `relevantOption` (src/unnamed/part_000:38-49): return `null` when the
strike is falsy (`0`) or the option list is empty, otherwise sort a copy of
the list by absolute distance of the parsed strike to the target and take
the first element. -/
def relevantOption (strikePrice : ℚ) (matchedOptions : List OptionQuote) :
    Option OptionQuote :=
  if strikePrice = 0 ∨ matchedOptions = [] then none
  else (stableSort (strikeDistLe strikePrice) matchedOptions).head?

/-- Distance of a quote's parsed strike from the threshold (junk value `0`
for an unparseable strike; excluded by hypothesis wherever it matters). -/
def specDist (t : ℚ) (o : OptionQuote) : ℚ :=
  match strikeOf o with
  | some s => |s - t|
  | none => 0

/-- Modelled from the spec's words (section 4.2): the earliest quote whose
parsed strike minimises the absolute distance to the threshold (ties go to
the earlier quote).  Stated separately from the source translation so the
sort-based selection can be proved to refine it. -/
def specNearestQuote (t : ℚ) : List OptionQuote → Option OptionQuote
  | [] => none
  | o :: l =>
      match specNearestQuote t l with
      | none => some o
      | some b => if specDist t o ≤ specDist t b then some o else some b

/-- One row of the strike-grouped option table (`{ call?, put? }`,
src/components/MarketCard.tsx:40). -/
structure StrikeGroup where
  call : Option OptionQuote := none
  put : Option OptionQuote := none
deriving DecidableEq

/-- Fill the `call`/`put` slot selected by the type field
(src/components/MarketCard.tsx:49-51). -/
def updateGroup (g : StrikeGroup) (ty : List Char) (o : OptionQuote) : StrikeGroup :=
  { call := if ty = ['C'] then some o else g.call
    put := if ty = ['P'] then some o else g.put }

/-- Insertion into the keyed record, preserving first-insertion key
order. -/
def insertGrouped : List (List Char × StrikeGroup) → List Char → List Char → OptionQuote →
    List (List Char × StrikeGroup)
  | [], k, ty, o => [(k, updateGroup {} ty o)]
  | (k', g) :: rest, k, ty, o =>
      if k' = k then (k', updateGroup g ty o) :: rest
      else (k', g) :: insertGrouped rest k ty o

/-- One step of the `matchedOptions.forEach` of `optionsByStrike`
(src/components/MarketCard.tsx:42-52): identifiers with fewer than four
`-`-separated fields are skipped (`if (parts.length < 4) return`). -/
def addToGroups (gs : List (List Char × StrikeGroup)) (o : OptionQuote) :
    List (List Char × StrikeGroup) :=
  let parts := splitFields '-' o.instrument_name.data
  if parts.length < 4 then gs
  else insertGrouped gs (parts.getD 2 []) (parts.getD 3 []) o

/-- The grouping phase of `optionsByStrike`
(src/components/MarketCard.tsx:39-52).  The subsequent display sort of the
entries by distance to the spot price only permutes the entries and is not
part of the grouping membership the claims are about. -/
def groupedByStrike (matchedOptions : List OptionQuote) : List (List Char × StrikeGroup) :=
  matchedOptions.foldl addToGroups []

/-!
## The edge and liquidity metrics
-/

/-- `calculateSpread` (src/utils/math.ts:122-125); `ask = none` models an
absent (`undefined`) best ask, so the JS guard `!ask || ask === 0` holds for
`none` and for `some 0`. -/
def calculateSpread (bid : ℚ) (ask : Option ℚ) : ℚ :=
  match ask with
  | none => 0
  | some a => if a = 0 then 0 else ((a - bid) / a) * 100

/-- `polyYesPrice = market.bestAsk || 0` (src/unnamed/part_000:52). -/
def polyYesPrice (bestAsk : Option ℚ) : ℚ := bestAsk.getD 0

/-- `edge = resultProb * 100 - polyYesPrice * 100` (src/unnamed/part_000:98),
for a published probability. -/
def edgeOf (resultProb : ℚ) (bestAsk : Option ℚ) : ℚ :=
  resultProb * 100 - polyYesPrice bestAsk * 100

/-- `isGoodOpp = edge > 5.0` (src/unnamed/part_000:99). -/
def isGoodOpp (resultProb : ℚ) (bestAsk : Option ℚ) : Bool :=
  decide (5 < edgeOf resultProb bestAsk)

/-- `isLiquidityLow = spread > 5.0` (src/unnamed/part_000:96). -/
def isLiquidityLow (bid : ℚ) (ask : Option ℚ) : Bool :=
  decide (5 < calculateSpread bid ask)

/-!
## The recompute effect of the analysis panel

The `useEffect` at src/unnamed/part_000:63-92 guards on a missing strike or
quote, sets `calculating`, schedules the probability computation on a
100 ms timer, publishes the result when the timer fires, and returns a
cleanup that clears the timer.  React runs the cleanup of the previous
effect before the next effect body, and JavaScript's event loop runs the
timer callback synchronously, so the state below evolves by the discrete
events `effect` (a dependency of `[spotPrice, strikePrice, timeToExpiry,
relevantOption, modelType, volMultiplier]` changed) and `fire` (a scheduled
timer callback is delivered).  The captured inputs and the computed
probability are abstracted as types `ι` and `ρ`, with the computation an
arbitrary pure function `compute`.
-/

/-- The panel state touched by the effect: the pending scheduled computation
with its captured inputs, the published probability (`resultProb`), and the
`calculating` flag (src/unnamed/part_000:22-23). -/
structure PanelState (ι ρ : Type) where
  pending : Option ι
  resultProb : Option ρ
  calculating : Bool

/-- The two observable events: one run of the effect body (preceded by the
previous cleanup), and delivery of a scheduled timer callback. -/
inductive PanelEvent (ι : Type) where
  | effect (inputs : Option ι)
  | fire

/-- One transition of the panel.  `effect none` is the early return
(`setResultProb(null)`) with the previous timer cleared; `effect (some i)`
clears the previous timer and schedules a computation on the new inputs;
`fire` delivers a pending callback, which computes and publishes. -/
def panelStep {ι ρ : Type} (compute : ι → ρ) (s : PanelState ι ρ) :
    PanelEvent ι → PanelState ι ρ
  | .effect none => { pending := none, resultProb := none, calculating := s.calculating }
  | .effect (some i) => { pending := some i, resultProb := s.resultProb, calculating := true }
  | .fire =>
      match s.pending with
      | none => s
      | some i => { pending := none, resultProb := some (compute i), calculating := false }

/-- Run a sequence of panel events from a state. -/
def panelRun {ι ρ : Type} (compute : ι → ρ) (s : PanelState ι ρ)
    (evs : List (PanelEvent ι)) : PanelState ι ρ :=
  evs.foldl (panelStep compute) s

/-!
## Claims
-/

open JsNum

/-- Claim C2 (confirmed): with time-to-expiry `T = 0`, both the closed-form
estimator and the Monte-Carlo estimator return exactly `1.0` if `S > K` and
exactly `0.0` otherwise, regardless of every other model parameter (both hit
the `if (T <= 0)` guard before any numeric work). -/
theorem C2_t_zero_indicator (S K sigma r volMultiplier : ℝ) (Z : ℕ → ℕ → ℝ)
    (iterations : ℕ) (isTouch : Bool) :
    calculateBlackScholesProb S K 0 sigma r = (if K < S then fin 1 else fin 0) ∧
    runMonteCarloSimulation Z S K 0 sigma r iterations volMultiplier isTouch
      = (if K < S then (1 : ℝ) else 0) := by
  constructor
  · rw [calculateBlackScholesProb, if_pos le_rfl]
  · rw [runMonteCarloSimulation, if_pos le_rfl]

/-- Claim C1 (code bug): the source never applies the claimed `sigma <= 0`
boundary rule — for `T > 0` it always evaluates the formula, dividing by
`sigma * sqrt(T) = 0`.  At `S = K = 100`, `T = 1`, `sigma = 0` with the
default `r = 0.04`, `d2 = 0.04 / 0 = Infinity` and the result is `1.0`
although `S > K` fails (the claimed boundary value is `0.0`); with `r = 0`,
`d2 = 0 / 0 = NaN` and the non-finite `NaN` is returned. -/
theorem C1_sigma_zero_violates_boundary :
    calculateBlackScholesProb 100 100 1 0 0.04 = fin 1 ∧
    calculateBlackScholesProb 100 100 1 0 0 = nan := by
  constructor
  · rw [calculateBlackScholesProb, if_neg (by norm_num)]
    norm_num [jsDiv_fin_fin, jsLog_fin_pos, jsMul_fin_fin, jsSub_fin_fin, jsAdd_fin_fin,
      jsSqrt_fin_nonneg, Real.log_one, Real.sqrt_one, jsDiv_fin_zero_pos, normalCDF_posInf]
  · rw [calculateBlackScholesProb, if_neg (by norm_num)]
    norm_num [jsDiv_fin_fin, jsLog_fin_pos, jsMul_fin_fin, jsSub_fin_fin, jsAdd_fin_fin,
      jsSqrt_fin_nonneg, Real.log_one, Real.sqrt_one, jsDiv_fin_zero_zero, normalCDF_nan]

/-- Claim C7 (confirmed): the edge is the model probability times 100 minus
the best-ask times 100 (equivalently `(p - ask) * 100`); the spread is
`(ask - bid) / ask * 100`, defined as `0` for a zero or absent ask; the
good-opportunity flag holds iff the edge exceeds `5.0` and the low-liquidity
flag iff the spread exceeds `5.0`; and the spec's worked examples hold:
ask `0.40` with probability `0.50` gives edge `+10.0` and a good
opportunity, and bid `0.40`, ask `0.45` gives spread `100/9 = 11.11…%`,
flagged low-liquidity. -/
theorem C7_edge_and_spread :
    (∀ p a : ℚ, edgeOf p (some a) = (p - a) * 100) ∧
    (∀ b a : ℚ, a ≠ 0 → calculateSpread b (some a) = ((a - b) / a) * 100) ∧
    (∀ b : ℚ, calculateSpread b none = 0 ∧ calculateSpread b (some 0) = 0) ∧
    (∀ (p : ℚ) (a : Option ℚ), isGoodOpp p a = true ↔ 5 < edgeOf p a) ∧
    (∀ (b : ℚ) (a : Option ℚ), isLiquidityLow b a = true ↔ 5 < calculateSpread b a) ∧
    edgeOf (1/2) (some (2/5)) = 10 ∧ isGoodOpp (1/2) (some (2/5)) = true ∧
    calculateSpread (2/5) (some (9/20)) = 100/9 ∧
    isLiquidityLow (2/5) (some (9/20)) = true := by
  refine ⟨?_, ?_, ?_, ?_, ?_, ?_, ?_, ?_, ?_⟩
  · intro p a; show p * 100 - (polyYesPrice (some a)) * 100 = (p - a) * 100
    show p * 100 - a * 100 = (p - a) * 100
    ring
  · intro b a ha; show (if a = 0 then 0 else ((a - b) / a) * 100) = ((a - b) / a) * 100
    rw [if_neg ha]
  · intro b; exact ⟨rfl, by rw [calculateSpread, if_pos rfl]⟩
  · intro p a; exact decide_eq_true_iff
  · intro b a; exact decide_eq_true_iff
  · norm_num [edgeOf, polyYesPrice]
  · rw [isGoodOpp, decide_eq_true_iff]; norm_num [edgeOf, polyYesPrice]
  · norm_num [calculateSpread]
  · rw [isLiquidityLow, decide_eq_true_iff]; norm_num [calculateSpread]

/-- Witness for C7: the spread formula applied at the concrete non-zero ask
`1/2` with bid `2/5`. -/
theorem C7_edge_and_spread_witness :
    (1/2 : ℚ) ≠ 0 ∧ calculateSpread (2/5) (some (1/2)) = ((1/2 - 2/5) / (1/2)) * 100 :=
  ⟨by norm_num, C7_edge_and_spread.2.1 (2/5) (1/2) (by norm_num)⟩

/-- Claim C5 counterexample: the text `"$0"` makes the extractor return `0`,
which is not a positive number, and on `"the unit is 100kg"` the claimed
value `100000` is not produced — the source pattern requires a word boundary
after `k` and `g` is a word character, so nothing is returned. -/
theorem C5_counterexample :
    extractStrikePrice "$0" = some 0 ∧ extractStrikePrice "the unit is 100kg" = none := by
  constructor
  · decide
  · decide

/-- Every value produced by the number-token parser is non-negative: both
regex patterns match only unsigned digit strings. -/
theorem numToken_nonneg {cs : List Char} {v : ℚ} {rest : List Char}
    (h : numToken cs = some (v, rest)) : 0 ≤ v := by
  rw [numToken] at h
  split at h
  · exact absurd h (by simp)
  · split at h
    · split at h
      · split at h
        · simp only [Option.some.injEq, Prod.mk.injEq] at h
          obtain ⟨rfl, -⟩ := h
          positivity
        · simp only [Option.some.injEq, Prod.mk.injEq] at h
          obtain ⟨rfl, -⟩ := h
          positivity
      · simp only [Option.some.injEq, Prod.mk.injEq] at h
        obtain ⟨rfl, -⟩ := h
        positivity
    · simp only [Option.some.injEq, Prod.mk.injEq] at h
      obtain ⟨rfl, -⟩ := h
      positivity

/-- Every value produced by the `$`-pattern scan is non-negative. -/
theorem findDollarNumber_nonneg : ∀ {cs : List Char} {v : ℚ},
    findDollarNumber cs = some v → 0 ≤ v := by
  intro cs
  induction cs with
  | nil => intro v h; exact absurd h (by simp [findDollarNumber])
  | cons c rest ih =>
    intro v h
    by_cases hc : c = '$'
    · rcases hnt : numToken rest with - | ⟨v', rest'⟩
      · rw [findDollarNumber, if_pos hc] at h
        simp only [hnt] at h
        exact ih h
      · rw [findDollarNumber, if_pos hc] at h
        simp only [hnt, Option.some.injEq] at h
        exact h ▸ numToken_nonneg hnt
    · rw [findDollarNumber, if_neg hc] at h
      exact ih h

/-- Every value produced by the `k`-pattern matcher is non-negative. -/
theorem kNumberAt_nonneg {cs : List Char} {v : ℚ} (h : kNumberAt cs = some v) :
    0 ≤ v := by
  rcases hnt : numToken cs with - | ⟨v', rest'⟩
  · rw [kNumberAt] at h
    simp [hnt] at h
  · have hv' : 0 ≤ v' := numToken_nonneg hnt
    rw [kNumberAt] at h
    simp only [hnt] at h
    rcases rest' with - | ⟨c, rest2⟩
    · simp at h
    · by_cases hck : c = 'k'
      · subst hck
        rcases rest2 with - | ⟨c2, rest3⟩
        · simp at h
          exact h ▸ hv'
        · by_cases hw : isWordChar c2 = true
          · simp [hw] at h
          · simp [hw] at h
            exact h ▸ hv'
      · simp [hck] at h

/-- Every value produced by the `k`-pattern scan is non-negative. -/
theorem findKNumber_nonneg : ∀ {cs : List Char} {v : ℚ},
    findKNumber cs = some v → 0 ≤ v := by
  intro cs
  induction cs with
  | nil => intro v h; exact absurd h (by simp [findKNumber])
  | cons c rest ih =>
    intro v h
    rw [findKNumber] at h
    split at h
    next v' hv' =>
      simp only [Option.some.injEq] at h
      exact h ▸ kNumberAt_nonneg hv'
    next => exact ih h

/-- Unfold the extractor on a text where the `$` pattern matches. -/
theorem extractStrikePrice_dollar {t : String} {v : ℚ} (ht : ¬ t = "")
    (hd : findDollarNumber ((t.data.filter (fun c => c ≠ ',')).map Char.toLower) = some v) :
    extractStrikePrice t = some v := by
  rw [extractStrikePrice, if_neg ht]
  simp only [hd]

/-- Unfold the extractor on a text where the `$` pattern misses and the `k`
pattern matches. -/
theorem extractStrikePrice_k {t : String} {v : ℚ} (ht : ¬ t = "")
    (hd : findDollarNumber ((t.data.filter (fun c => c ≠ ',')).map Char.toLower) = none)
    (hk : findKNumber ((t.data.filter (fun c => c ≠ ',')).map Char.toLower) = some v) :
    extractStrikePrice t = some (v * 1000) := by
  rw [extractStrikePrice, if_neg ht]
  simp only [hd, hk]

/-- Claim C5 (corrected): the extractor strips separator commas and
lower-cases, then returns the first `$`-prefixed number as-is; else the
first number immediately followed by `k` *at a word boundary* multiplied by
1000; else none — patterns tried in that fixed order with the first
successful pattern winning — and any value it returns is a *non-negative*
number (the digit patterns can match `0`, e.g. `"$0"`).  The spec's worked
examples hold, and the fixed pattern order is witnessed by `"100k then $50"`
yielding `50` although the `k`-match occurs earlier in the text. -/
theorem C5_extractor_amended :
    (∀ (t : String) (q : ℚ), extractStrikePrice t = some q → 0 ≤ q) ∧
    extractStrikePrice "Bitcoin above $95,000" = some 95000 ∧
    extractStrikePrice "BTC 100k by March" = some 100000 ∧
    extractStrikePrice "no numbers here" = none ∧
    extractStrikePrice "100k then $50" = some 50 := by
  refine ⟨?_, extractStrikePrice_dollar (by decide) (by decide), ?_, by decide,
    extractStrikePrice_dollar (by decide) (by decide)⟩
  · intro t q h
    rw [extractStrikePrice] at h
    split at h
    · exact absurd h (by simp)
    · split at h
      next v hv =>
        simp only [Option.some.injEq] at h
        exact h ▸ findDollarNumber_nonneg hv
      next =>
        split at h
        next v hv =>
          simp only [Option.some.injEq] at h
          have hv0 := findKNumber_nonneg hv
          rw [← h]
          positivity
        next => exact absurd h (by simp)
  · have h := extractStrikePrice_k (t := "BTC 100k by March") (v := 100)
      (by decide) (by decide) (by decide)
    rw [h]
    norm_num

/-- Witness for C5's non-negativity clause at the concrete text `"$5"`. -/
theorem C5_extractor_amended_witness :
    extractStrikePrice "$5" = some 5 ∧ (0:ℚ) ≤ 5 :=
  ⟨by decide, C5_extractor_amended.1 "$5" 5 (by decide)⟩

/-- The nearest-strike comparator accepts `a` before `b` exactly when `a`'s
distance is at most `b`'s, whenever both strikes parse. -/
theorem strikeDistLe_eq_true_iff {t : ℚ} {a b : OptionQuote} {sa sb : ℚ}
    (ha : strikeOf a = some sa) (hb : strikeOf b = some sb) :
    strikeDistLe t a b = true ↔ |sa - t| ≤ |sb - t| := by
  rw [strikeDistLe]
  simp only [ha, hb, decide_eq_true_eq]
  exact sub_nonpos

/-- A selection made by the specification-level nearest-quote function is a
member of the list. -/
theorem specNearestQuote_mem (t : ℚ) :
    ∀ {l : List OptionQuote} {b : OptionQuote}, specNearestQuote t l = some b → b ∈ l := by
  intro l
  induction l with
  | nil => intro b h; exact absurd h (by simp [specNearestQuote])
  | cons a l ih =>
    intro b h
    rw [specNearestQuote] at h
    cases hsl : specNearestQuote t l with
    | none =>
      simp only [hsl, Option.some.injEq] at h
      exact h ▸ List.mem_cons_self a l
    | some c =>
      simp only [hsl] at h
      by_cases hd : specDist t a ≤ specDist t c
      · rw [if_pos hd] at h
        simp only [Option.some.injEq] at h
        exact h ▸ List.mem_cons_self a l
      · rw [if_neg hd] at h
        simp only [Option.some.injEq] at h
        exact List.mem_cons_of_mem _ (ih (h ▸ hsl))

/-- The specification-level nearest-quote function returns `none` only on
the empty list. -/
theorem specNearestQuote_eq_none {t : ℚ} :
    ∀ {l : List OptionQuote}, specNearestQuote t l = none → l = [] := by
  intro l h
  cases l with
  | nil => rfl
  | cons a l =>
    rw [specNearestQuote] at h
    cases hsl : specNearestQuote t l with
    | none => simp [hsl] at h
    | some c =>
      simp only [hsl] at h
      by_cases hd : specDist t a ≤ specDist t c
      · rw [if_pos hd] at h; exact absurd h (by simp)
      · rw [if_neg hd] at h; exact absurd h (by simp)

/-- The specification-level nearest quote attains the minimum distance. -/
theorem specNearestQuote_min (t : ℚ) :
    ∀ {l : List OptionQuote} {b : OptionQuote}, specNearestQuote t l = some b →
      ∀ o ∈ l, specDist t b ≤ specDist t o := by
  intro l
  induction l with
  | nil => intro b h; exact absurd h (by simp [specNearestQuote])
  | cons a l ih =>
    intro b h o ho
    rw [specNearestQuote] at h
    cases hsl : specNearestQuote t l with
    | none =>
      have hl : l = [] := specNearestQuote_eq_none hsl
      simp only [hsl, Option.some.injEq] at h
      subst hl
      rcases List.mem_singleton.mp ho with rfl
      exact le_of_eq (by rw [h])
    | some c =>
      simp only [hsl] at h
      by_cases hd : specDist t a ≤ specDist t c
      · rw [if_pos hd] at h
        simp only [Option.some.injEq] at h
        subst h
        cases List.mem_cons.mp ho with
        | inl he => exact le_of_eq (by rw [he])
        | inr hol => exact le_trans hd (ih hsl o hol)
      · rw [if_neg hd] at h
        simp only [Option.some.injEq] at h
        subst h
        cases List.mem_cons.mp ho with
        | inl he => rw [he]; exact le_of_not_le hd
        | inr hol => exact ih hsl o hol

/-- The head of the stable sort by strike distance is exactly the
specification-level nearest quote, whenever every strike parses. -/
theorem stableSort_head_eq_specNearest (t : ℚ) :
    ∀ l : List OptionQuote, (∀ o ∈ l, (strikeOf o).isSome) →
      (stableSort (strikeDistLe t) l).head? = specNearestQuote t l := by
  intro l
  induction l with
  | nil => intro _; rfl
  | cons a l ih =>
    intro hall
    have hall' : ∀ o ∈ l, (strikeOf o).isSome :=
      fun o ho => hall o (List.mem_cons_of_mem _ ho)
    rw [stableSort, specNearestQuote]
    cases hsl : stableSort (strikeDistLe t) l with
    | nil =>
      have h0 : specNearestQuote t l = none := by
        rw [← ih hall', hsl]; rfl
      rw [h0]
      rfl
    | cons b l' =>
      have hb : specNearestQuote t l = some b := by
        rw [← ih hall', hsl]; rfl
      have hbl : b ∈ l := specNearestQuote_mem t hb
      obtain ⟨sa, hsa⟩ := Option.isSome_iff_exists.mp (hall a (List.mem_cons_self a l))
      obtain ⟨sb, hsb⟩ := Option.isSome_iff_exists.mp (hall' b hbl)
      rw [hb]
      show (stableInsert (strikeDistLe t) a (b :: l')).head?
          = if specDist t a ≤ specDist t b then some a else some b
      rw [stableInsert]
      have hda : specDist t a = |sa - t| := by rw [specDist, hsa]
      have hdb : specDist t b = |sb - t| := by rw [specDist, hsb]
      by_cases hd : specDist t a ≤ specDist t b
      · have hle : strikeDistLe t a b = true :=
          (strikeDistLe_eq_true_iff hsa hsb).mpr (by rw [← hda, ← hdb]; exact hd)
        rw [if_pos hle, if_pos hd]
        rfl
      · have hle : ¬ strikeDistLe t a b = true := by
          rw [strikeDistLe_eq_true_iff hsa hsb, ← hda, ← hdb]
          exact hd
        rw [if_neg hle, if_neg hd]
        rfl

/-- Claim C4 counterexample: the source guard is the JS falsiness test
`!strikePrice`, which holds only for a zero threshold.  For the negative
(hence non-positive) threshold `-5` and a non-empty quote list the selector
returns a quote, not the "no selection" the claim requires. -/
theorem C4_counterexample :
    relevantOption (-5) [⟨"BTC-27MAR26-100000-C", 50⟩] =
      some ⟨"BTC-27MAR26-100000-C", 50⟩ := by
  rw [relevantOption, if_neg]
  · rfl
  · push_neg
    exact ⟨by norm_num, by simp⟩

/-- Claim C4 (corrected): for every *nonzero* threshold the selector returns
exactly the specification's nearest-strike choice over quotes with
parseable strikes — the member of minimum absolute strike distance, earliest
quote on ties — while an empty set or a threshold of exactly *zero* gives no
selection (the guard is JS falsiness, so negative thresholds are not
guarded and behave like positive ones); the worked example with strikes
90000/100000/110000 and threshold 101000 selects the 100000 quote. -/
theorem C4_nearest_strike_amended :
    (∀ (t : ℚ) (opts : List OptionQuote), t ≠ 0 →
      (∀ o ∈ opts, (strikeOf o).isSome) →
      relevantOption t opts = specNearestQuote t opts ∧
      (∀ q, relevantOption t opts = some q →
        q ∈ opts ∧ ∀ o ∈ opts, specDist t q ≤ specDist t o)) ∧
    (∀ t : ℚ, relevantOption t [] = none) ∧
    (∀ opts, relevantOption 0 opts = none) ∧
    relevantOption 101000
      [⟨"BTC-27MAR26-90000-C", 40⟩, ⟨"BTC-27MAR26-100000-C", 50⟩,
        ⟨"BTC-27MAR26-110000-C", 60⟩]
      = some ⟨"BTC-27MAR26-100000-C", 50⟩ := by
  have hmain : ∀ (t : ℚ) (opts : List OptionQuote), t ≠ 0 →
      (∀ o ∈ opts, (strikeOf o).isSome) →
      relevantOption t opts = specNearestQuote t opts := by
    intro t opts ht hall
    by_cases hopts : opts = []
    · subst hopts
      rw [relevantOption, if_pos (Or.inr rfl)]
      rfl
    · rw [relevantOption, if_neg (by push_neg; exact ⟨ht, hopts⟩)]
      exact stableSort_head_eq_specNearest t opts hall
  refine ⟨?_, ?_, ?_, ?_⟩
  · intro t opts ht hall
    refine ⟨hmain t opts ht hall, ?_⟩
    intro q hq
    rw [hmain t opts ht hall] at hq
    exact ⟨specNearestQuote_mem t hq, specNearestQuote_min t hq⟩
  · intro t
    rw [relevantOption, if_pos (Or.inr rfl)]
  · intro opts
    rw [relevantOption, if_pos (Or.inl rfl)]
  · have hs90 : strikeOf ⟨"BTC-27MAR26-90000-C", 40⟩ = some 90000 := by decide
    have hs100 : strikeOf ⟨"BTC-27MAR26-100000-C", 50⟩ = some 100000 := by decide
    have hs110 : strikeOf ⟨"BTC-27MAR26-110000-C", 60⟩ = some 110000 := by decide
    have hc1 : strikeDistLe 101000 ⟨"BTC-27MAR26-100000-C", 50⟩
        ⟨"BTC-27MAR26-110000-C", 60⟩ = true := by
      rw [strikeDistLe_eq_true_iff hs100 hs110]
      rw [show (100000:ℚ) - 101000 = -1000 by norm_num,
        show (110000:ℚ) - 101000 = 9000 by norm_num, abs_neg,
        abs_of_nonneg (by norm_num : (0:ℚ) ≤ 1000),
        abs_of_nonneg (by norm_num : (0:ℚ) ≤ 9000)]
      norm_num
    have hc2 : strikeDistLe 101000 ⟨"BTC-27MAR26-90000-C", 40⟩
        ⟨"BTC-27MAR26-100000-C", 50⟩ = false := by
      rw [Bool.eq_false_iff]
      intro hcon
      rw [strikeDistLe_eq_true_iff hs90 hs100] at hcon
      rw [show (90000:ℚ) - 101000 = -11000 by norm_num,
        show (100000:ℚ) - 101000 = -1000 by norm_num, abs_neg, abs_neg,
        abs_of_nonneg (by norm_num : (0:ℚ) ≤ 11000),
        abs_of_nonneg (by norm_num : (0:ℚ) ≤ 1000)] at hcon
      norm_num at hcon
    have hc3 : strikeDistLe 101000 ⟨"BTC-27MAR26-90000-C", 40⟩
        ⟨"BTC-27MAR26-110000-C", 60⟩ = false := by
      rw [Bool.eq_false_iff]
      intro hcon
      rw [strikeDistLe_eq_true_iff hs90 hs110] at hcon
      rw [show (90000:ℚ) - 101000 = -11000 by norm_num,
        show (110000:ℚ) - 101000 = 9000 by norm_num, abs_neg,
        abs_of_nonneg (by norm_num : (0:ℚ) ≤ 11000),
        abs_of_nonneg (by norm_num : (0:ℚ) ≤ 9000)] at hcon
      norm_num at hcon
    rw [relevantOption, if_neg (by push_neg; exact ⟨by norm_num, by simp⟩)]
    simp only [stableSort, stableInsert, hc1, hc2, hc3, if_true, if_false]
    rfl

/-- Witness for C4's nearest-strike clause at a single-quote list and the
concrete nonzero threshold `5`. -/
theorem C4_nearest_strike_amended_witness :
    (5:ℚ) ≠ 0 ∧
    relevantOption 5 [⟨"BTC-27MAR26-90000-C", 40⟩]
      = specNearestQuote 5 [⟨"BTC-27MAR26-90000-C", 40⟩] :=
  ⟨by norm_num,
    (C4_nearest_strike_amended.1 5 [⟨"BTC-27MAR26-90000-C", 40⟩] (by norm_num)
      (fun o ho => by rw [List.mem_singleton] at ho; subst ho; decide)).1⟩

/-- Claim C8 counterexample: a quote whose identifier does not have the
four-field structure is *not* skipped by the nearest-strike selection: with
a single malformed quote and a valid threshold the selection returns that
quote, whereas skipping it would give no selection. -/
theorem C8_counterexample :
    relevantOption 100000 [⟨"BTCMALFORMED", 0⟩] = some ⟨"BTCMALFORMED", 0⟩ := by
  rw [relevantOption, if_neg]
  · rfl
  · push_neg
    exact ⟨by norm_num, by simp⟩

/-- Skipping malformed identifiers is a no-op fold step, so the grouping
result only depends on the well-formed quotes. -/
theorem foldl_addToGroups_filter :
    ∀ (opts : List OptionQuote) (gs : List (List Char × StrikeGroup)),
      opts.foldl addToGroups gs
        = (opts.filter
            (fun o => decide (4 ≤ (splitFields '-' o.instrument_name.data).length))).foldl
            addToGroups gs := by
  intro opts
  induction opts with
  | nil => intro gs; rfl
  | cons o l ih =>
    intro gs
    by_cases ho : 4 ≤ (splitFields '-' o.instrument_name.data).length
    · rw [List.foldl_cons, List.filter_cons_of_pos (by simpa using ho), List.foldl_cons,
        ih]
    · have hskip : addToGroups gs o = gs := by
        simp only [addToGroups]
        rw [if_pos (by omega)]
      rw [List.foldl_cons, hskip, List.filter_cons_of_neg (by simpa using ho), ih]

/-- Claim C8 (corrected): quotes whose identifiers have fewer than four
`-`-separated fields are skipped from the strike grouping without affecting
how the well-formed quotes are grouped (the grouping of any list equals the
grouping of its well-formed sublist), and nothing fails; but the
nearest-strike selection does *not* skip malformed quotes — they participate
in the sort (their `NaN` comparisons are ties) and can be selected. -/
theorem C8_malformed_amended :
    (∀ opts : List OptionQuote,
      groupedByStrike opts
        = groupedByStrike (opts.filter
            (fun o => decide (4 ≤ (splitFields '-' o.instrument_name.data).length)))) ∧
    relevantOption 95000 [⟨"BTC-BAD", 0⟩] = some ⟨"BTC-BAD", 0⟩ := by
  constructor
  · intro opts
    rw [groupedByStrike, groupedByStrike]
    exact foldl_addToGroups_filter opts []
  · rw [relevantOption, if_neg]
    · rfl
    · push_neg
      exact ⟨by norm_num, by simp⟩

/-- `panelRun` distributes over a leading event. -/
theorem panelRun_cons {ι ρ : Type} (compute : ι → ρ) (s : PanelState ι ρ)
    (e : PanelEvent ι) (evs : List (PanelEvent ι)) :
    panelRun compute s (e :: evs) = panelRun compute (panelStep compute s e) evs := rfl

/-- With no pending timer, timer deliveries change nothing. -/
theorem panelRun_fire_of_none {ι ρ : Type} (compute : ι → ρ) :
    ∀ (n : ℕ) (s : PanelState ι ρ), s.pending = none →
      panelRun compute s (List.replicate n .fire) = s := by
  intro n
  induction n with
  | zero => intro s _; rfl
  | succ m ih =>
    intro s hs
    have hstep : panelStep compute s .fire = s := by
      rw [panelStep, hs]
    rw [List.replicate_succ, panelRun_cons, hstep]
    exact ih s hs

/-- Claim C3 (confirmed): when a new change to any effect dependency (spot,
threshold, time-to-expiry, selected quote, model choice, volatility
multiplier) supersedes an in-flight computation, the previous effect's
cleanup clears the superseded timer before the new effect schedules its own.
After triggers `A` then `B`, only `B`'s computation is pending, and after
any positive number of timer deliveries the published probability is
`compute B`: the superseded computation `A` is discarded and can never
overwrite the newer result, regardless of scheduling. -/
theorem C3_last_trigger_wins {ι ρ : Type} (compute : ι → ρ)
    (s : PanelState ι ρ) (A B : ι) (n : ℕ) (hn : 1 ≤ n) :
    (panelStep compute (panelStep compute s (.effect (some A)))
        (.effect (some B))).pending = some B ∧
    (panelRun compute
        (panelStep compute (panelStep compute s (.effect (some A)))
          (.effect (some B)))
        (List.replicate n .fire)).resultProb = some (compute B) := by
  constructor
  · rfl
  · obtain ⟨m, rfl⟩ : ∃ m, n = m + 1 := ⟨n - 1, by omega⟩
    have h1 : panelStep compute (panelStep compute (panelStep compute s
        (.effect (some A))) (.effect (some B))) .fire
        = { pending := none, resultProb := some (compute B), calculating := false } := rfl
    rw [List.replicate_succ, panelRun_cons, h1,
      panelRun_fire_of_none compute m _ rfl]

/-- Witness for C3: identity computation over `ℚ`, triggers `1` then `2`,
one timer delivery; the published result is `2`. -/
theorem C3_last_trigger_wins_witness :
    (1:ℕ) ≤ 1 ∧
    ((panelStep (fun q : ℚ => q) (panelStep (fun q : ℚ => q)
        ⟨none, none, false⟩ (.effect (some 1))) (.effect (some 2))).pending = some 2 ∧
      (panelRun (fun q : ℚ => q)
          (panelStep (fun q : ℚ => q) (panelStep (fun q : ℚ => q)
            ⟨none, none, false⟩ (.effect (some 1))) (.effect (some 2)))
          (List.replicate 1 .fire)).resultProb = some 2) :=
  ⟨le_rfl, C3_last_trigger_wins (fun q : ℚ => q) ⟨none, none, false⟩ 1 2 1 le_rfl⟩

/-- The constant stream `1/2` keeps producing non-zero draws. -/
theorem halfStream_nonzero : ∀ k : ℕ, ∃ n, k ≤ n ∧ (fun _ : ℕ => (1/2 : ℝ)) n ≠ 0 :=
  fun k => ⟨k, le_rfl, by norm_num⟩

/-- Claim C9 (confirmed): for every uniform stream in `[0,1)` (that keeps
producing non-zero draws, the termination condition of the rejection
loops), the Box-Muller generator rejects exact-zero draws before using
them — both selected draws are strictly positive, so the logarithm is only
applied to a strictly positive argument (the `log 0 = -Infinity` branch is
unreachable) and the generator returns a finite value. -/
theorem C9_box_muller_finite (U : ℕ → ℝ)
    (hrange : ∀ n, 0 ≤ U n ∧ U n < 1) (h : ∀ k, ∃ n, k ≤ n ∧ U n ≠ 0) :
    0 < U (firstNonzeroDraw U 0 (h 0)) ∧
    0 < U (firstNonzeroDraw U (firstNonzeroDraw U 0 (h 0) + 1)
        (h (firstNonzeroDraw U 0 (h 0) + 1))) ∧
    ∃ x : ℝ, randn_bm U h = JsNum.fin x := by
  set i := firstNonzeroDraw U 0 (h 0) with hidef
  set j := firstNonzeroDraw U (i + 1) (h (i + 1)) with hjdef
  have hune : U i ≠ 0 := (Nat.find_spec (h 0)).2
  have hvne : U j ≠ 0 := (Nat.find_spec (h (i + 1))).2
  have hupos : 0 < U i := lt_of_le_of_ne (hrange i).1 (Ne.symm hune)
  have hvpos : 0 < U j := lt_of_le_of_ne (hrange j).1 (Ne.symm hvne)
  refine ⟨hupos, hvpos, ?_⟩
  have hlog : Real.log (U i) < 0 := Real.log_neg hupos (hrange i).2
  refine ⟨Real.sqrt (-2.0 * Real.log (U i)) * Real.cos (2.0 * Real.pi * U j), ?_⟩
  show jsMul (jsSqrt (jsMul (fin (-2.0)) (jsLog (fin (U i)))))
      (jsCos (jsMul (jsMul (fin 2.0) (fin Real.pi)) (fin (U j)))) = _
  rw [jsLog_fin_pos hupos, jsMul_fin_fin,
    jsSqrt_fin_nonneg (by nlinarith), jsMul_fin_fin]
  rfl

/-- Witness for C9 at the constant stream `1/2`. -/
theorem C9_box_muller_finite_witness :
    (∀ n : ℕ, 0 ≤ (fun _ : ℕ => (1/2 : ℝ)) n ∧ (fun _ : ℕ => (1/2 : ℝ)) n < 1) ∧
    ∃ x : ℝ, randn_bm (fun _ : ℕ => (1/2 : ℝ)) halfStream_nonzero = JsNum.fin x :=
  ⟨fun n => ⟨by norm_num, by norm_num⟩,
    (C9_box_muller_finite (fun _ : ℕ => (1/2 : ℝ))
      (fun n => ⟨by norm_num, by norm_num⟩) halfStream_nonzero).2.2⟩

/-- A touch-mode path succeeds exactly when some strictly-post-step price
reaches the barrier. -/
theorem mcPathSuccess_touch (drift volShock K S : ℝ) (z : ℕ → ℝ) (steps : ℕ) :
    mcPathSuccess drift volShock K true z steps S
      ↔ ∃ m, 1 ≤ m ∧ m ≤ steps ∧ K ≤ mcPrices drift volShock S z m := by
  show ((mcPathLoop drift volShock K true z 0 steps S).2 = true) ↔ _
  have hiff := mcPathLoop_touch_hit_iff drift volShock K S z steps 0
  constructor
  · intro hp
    obtain ⟨m, h1, h2, h3⟩ := hiff.mp hp
    exact ⟨m, by omega, by omega, h3⟩
  · rintro ⟨m, h1, h2, h3⟩
    exact hiff.mpr ⟨m, by omega, by omega, h3⟩

/-- A terminal-mode path over one step succeeds exactly when the price after
that single step strictly exceeds the barrier. -/
theorem mcPathSuccess_terminal (drift volShock K S : ℝ) (z : ℕ → ℝ) :
    mcPathSuccess drift volShock K false z 1 S
      ↔ K < mcPrices drift volShock S z 1 := by
  show (K < (mcPathLoop drift volShock K false z 0 1 S).1) ↔ _
  rw [show mcPathLoop drift volShock K false z 0 1 S
      = (mcPrices drift volShock S z (0 + 1), false) from
    mcPathLoop_false_eq drift volShock K S z 1 0]

open scoped Classical in
/-- Claim C6 (confirmed): for `T > 0` the simulator uses exactly `1` step
per path in terminal mode and `max(1, ceil(T*365))` steps in touch mode
(exposed here through the equations defining `steps`, `drift` and
`volShock`); a terminal path succeeds iff its single-step final price
strictly exceeds `K`; a touch path succeeds iff some post-step price is at
least `K`, with the loop stopping at the first touch; and the returned
estimate is the successful-path count divided by the iteration count. -/
theorem C6_monte_carlo_structure (Z : ℕ → ℕ → ℝ) (S K T sigma r volMultiplier : ℝ)
    (iterations : ℕ) (isTouch : Bool) (steps : ℕ) (drift volShock : ℝ)
    (hT : 0 < T)
    (hsteps : steps = if isTouch then (max 1 ⌈T * 365⌉).toNat else 1)
    (hdrift : drift
      = (r - 0.5 * (sigma * volMultiplier) * (sigma * volMultiplier)) * (T / steps))
    (hshock : volShock = (sigma * volMultiplier) * Real.sqrt (T / steps)) :
    runMonteCarloSimulation Z S K T sigma r iterations volMultiplier isTouch
      = (((Finset.range iterations).filter (fun i =>
          if isTouch = true
          then ∃ m, 1 ≤ m ∧ m ≤ steps ∧ K ≤ mcPrices drift volShock S (Z i) m
          else K < mcPrices drift volShock S (Z i) 1)).card : ℝ) / iterations ∧
    (∀ i m, 1 ≤ m → m ≤ steps → K ≤ mcPrices drift volShock S (Z i) m →
      (∀ l, 1 ≤ l → l < m → mcPrices drift volShock S (Z i) l < K) →
      mcPathLoop drift volShock K true (Z i) 0 steps S
        = (mcPrices drift volShock S (Z i) m, true)) := by
  constructor
  · rw [runMonteCarloSimulation, if_neg (not_le.mpr hT)]
    dsimp only
    rw [← hsteps, ← hdrift, ← hshock]
    have hAB : mcSuccessCount Z drift volShock K isTouch steps S iterations
        = ((Finset.range iterations).filter (fun i =>
            if isTouch = true
            then ∃ m, 1 ≤ m ∧ m ≤ steps ∧ K ≤ mcPrices drift volShock S (Z i) m
            else K < mcPrices drift volShock S (Z i) 1)).card := by
      rw [mcSuccessCount_eq_card]
      congr 1
      apply Finset.filter_congr
      intro ii _
      cases isTouch with
      | true =>
        rw [if_pos rfl]
        exact mcPathSuccess_touch drift volShock K S (Z ii) steps
      | false =>
        have h1 : steps = 1 := by simpa using hsteps
        subst h1
        rw [if_neg (by simp)]
        exact mcPathSuccess_terminal drift volShock K S (Z ii)
    rw [hAB]
  · intro i m h1 h2 h3 h4
    exact mcPathLoop_touch_first drift volShock K S (Z i) steps 0 m (by omega) (by omega)
      h3 (fun l hl1 hl2 => h4 l (by omega) hl2)

open scoped Classical in
/-- Witness for C6: terminal mode, one iteration, one step, all-zero draws,
`S = 1 < K = 2`. -/
theorem C6_monte_carlo_structure_witness :
    (0:ℝ) < 1 ∧
    (runMonteCarloSimulation (fun _ _ => 0) 1 2 1 0 0 1 1 false
        = (((Finset.range 1).filter (fun i =>
            if false = true
            then ∃ m, 1 ≤ m ∧ m ≤ 1 ∧ (2:ℝ) ≤ mcPrices 0 0 1 (fun _ => (0:ℝ)) m
            else (2:ℝ) < mcPrices 0 0 1 (fun _ => (0:ℝ)) 1)).card : ℝ) / ((1:ℕ):ℝ) ∧
      (∀ (i : ℕ) (m : ℕ), 1 ≤ m → m ≤ 1 → (2:ℝ) ≤ mcPrices 0 0 1 (fun _ => (0:ℝ)) m →
        (∀ l, 1 ≤ l → l < m → mcPrices 0 0 1 (fun _ => (0:ℝ)) l < 2) →
        mcPathLoop 0 0 2 true (fun _ => (0:ℝ)) 0 1 1
          = (mcPrices 0 0 1 (fun _ => (0:ℝ)) m, true))) :=
  ⟨by norm_num,
    C6_monte_carlo_structure (fun _ _ => 0) 1 2 1 0 0 1 1 false 1 0 0
      (by norm_num) (by simp) (by norm_num) (by norm_num)⟩

/-- If every path fails, the touch-mode simulation returns `0`. -/
theorem runMC_touch_all_fail (Z : ℕ → ℕ → ℝ) (S K T sigma r : ℝ)
    (iterations : ℕ) (volMultiplier : ℝ) (steps : ℕ) (drift volShock : ℝ)
    (hT : 0 < T)
    (hsteps : steps = if (true:Bool) then (max 1 ⌈T * 365⌉).toNat else 1)
    (hdrift : drift
      = (r - 0.5 * (sigma * volMultiplier) * (sigma * volMultiplier)) * (T / steps))
    (hshock : volShock = (sigma * volMultiplier) * Real.sqrt (T / steps))
    (hfail : ∀ i, ¬ mcPathSuccess drift volShock K true (Z i) steps S) :
    runMonteCarloSimulation Z S K T sigma r iterations volMultiplier true = 0 := by
  rw [runMonteCarloSimulation, if_neg (not_le.mpr hT)]
  dsimp only
  rw [← hsteps, ← hdrift, ← hshock]
  have hcz : ∀ n, mcSuccessCount Z drift volShock K true steps S n = 0 := by
    intro n
    induction n with
    | zero => rfl
    | succ k ih => rw [mcSuccessCount, ih, if_neg (hfail k)]
  rw [hcz iterations]
  simp

/-- Claim C10 (confirmed): in touch mode the barrier comparison applies only
to prices produced after a simulation step — a path succeeds only when some
strictly-post-step price is at least `K`, the initial spot never being
compared — and there are inputs with `S ≥ K` and `T > 0` (here
`S = K = 1`, `T = 1`, `sigma = 0`, `r = -1`: strictly shrinking prices) and
draws (all-zero) under which the returned probability is `0`, strictly less
than `1.0`, although the spot already meets the barrier. -/
theorem C10_initial_spot_not_compared :
    (∀ (drift volShock K S : ℝ) (z : ℕ → ℝ) (steps : ℕ), K ≤ S →
      (mcPathLoop drift volShock K true z 0 steps S).2 = true →
      ∃ m, 1 ≤ m ∧ m ≤ steps ∧ K ≤ mcPrices drift volShock S z m) ∧
    (1:ℝ) ≤ 1 ∧
    runMonteCarloSimulation (fun _ _ => 0) 1 1 1 0 (-1) 2 1 true < 1 := by
  refine ⟨?_, le_rfl, ?_⟩
  · intro drift volShock K S z steps _ hp
    exact (mcPathSuccess_touch drift volShock K S z steps).mp hp
  · set sp := (if (true:Bool) then (max 1 ⌈(1:ℝ) * 365⌉).toNat else 1) with hspdef
    have hsp : 0 < sp := by
      rw [hspdef, if_pos rfl]
      have h1 : (1:ℤ) ≤ max 1 ⌈(1:ℝ) * 365⌉ := le_max_left _ _
      omega
    set dE := ((-1:ℝ) - 0.5 * ((0:ℝ) * 1) * ((0:ℝ) * 1)) * ((1:ℝ) / sp) with hdE
    set sE := ((0:ℝ) * 1) * Real.sqrt ((1:ℝ) / sp) with hsE
    have hx : (0:ℝ) < 1 / (sp:ℝ) := one_div_pos.mpr (Nat.cast_pos.mpr hsp)
    have hstep : ∀ m : ℕ, dE + sE * (fun _ : ℕ => (0:ℝ)) m < 0 := by
      intro m
      rw [hdE, hsE]
      simp only [mul_zero, add_zero]
      nlinarith [hx]
    have hfail : ∀ i : ℕ, ¬ mcPathSuccess dE sE 1 true ((fun _ _ => (0:ℝ)) i) sp 1 := by
      intro i hp
      have hp' : (mcPathLoop dE sE 1 true (fun _ : ℕ => (0:ℝ)) 0 sp 1).2 = true := hp
      rw [mcPathLoop_never_hits dE sE 1 (fun _ : ℕ => (0:ℝ)) hstep sp 0 1 one_pos
        le_rfl] at hp'
      exact absurd hp' (by simp)
    have h0 := runMC_touch_all_fail (fun _ _ => 0) 1 1 1 0 (-1) 2 1 sp dE sE
      one_pos hspdef hdE hsE hfail
    rw [h0]
    norm_num

/-- Witness for C10's success-characterisation clause: a path that touches
at the first step (`S = 2`, barrier `K = 1`, zero drift and shock). -/
theorem C10_initial_spot_not_compared_witness :
    (1:ℝ) ≤ 2 ∧
    (mcPathLoop 0 0 1 true (fun _ : ℕ => (0:ℝ)) 0 365 2).2 = true ∧
    (∃ m, 1 ≤ m ∧ m ≤ 365 ∧ (1:ℝ) ≤ mcPrices 0 0 2 (fun _ : ℕ => (0:ℝ)) m) := by
  have hP1 : (1:ℝ) ≤ mcPrices 0 0 2 (fun _ : ℕ => (0:ℝ)) 1 := by
    show (1:ℝ) ≤ mcPrices 0 0 2 (fun _ : ℕ => (0:ℝ)) 0 * Real.exp (0 + 0 * 0)
    rw [show mcPrices (0:ℝ) 0 2 (fun _ : ℕ => (0:ℝ)) 0 = 2 from rfl]
    rw [show (0:ℝ) + 0 * 0 = 0 by norm_num, Real.exp_zero]
    norm_num
  have hfirst := mcPathLoop_touch_first 0 0 1 2 (fun _ : ℕ => (0:ℝ)) 365 0 1
    (by omega) (by omega) hP1 (fun i h1 h2 => absurd h2 (by omega))
  have hloop : (mcPathLoop 0 0 1 true (fun _ : ℕ => (0:ℝ)) 0 365 2).2 = true := by
    have hfirst' : mcPathLoop 0 0 1 true (fun _ : ℕ => (0:ℝ)) 0 365 2
        = (mcPrices 0 0 2 (fun _ : ℕ => (0:ℝ)) 1, true) := hfirst
    rw [hfirst']
  exact ⟨by norm_num, hloop,
    C10_initial_spot_not_compared.1 0 0 1 2 (fun _ : ℕ => (0:ℝ)) 365 (by norm_num) hloop⟩
